import Mathlib

/-!
Shallow embedding of `src/strategy.py` (FTC DECODE strategy simulator).

Python floats are modelled as real numbers, `math.hypot(dx, dy)` as
`Real.sqrt (dx ^ 2 + dy ^ 2)`.  On finite inputs the only exception
`compute_strategy` can raise is Python's `ZeroDivisionError` at
`travel_time = d / speed` (strategy.py line 49), which fires on the first
loop iteration exactly when `robot_speed = 0` and the artifact list is
non-empty; it is modelled with `Except.error`.
-/

namespace Decode

/-- Python `Point = Tuple[float, float]` (strategy.py line 6). -/
abbrev Point : Type := ℝ × ℝ

/-- `euclid(a, b) = math.hypot(a[0]-b[0], a[1]-b[1])` (strategy.py lines 8-9). -/
noncomputable def euclid (a b : Point) : ℝ :=
  Real.sqrt ((a.1 - b.1) ^ 2 + (a.2 - b.2) ^ 2)

/-- The eight values `compute_strategy` reads from its `params` dict
(strategy.py lines 26-33), with the source's key names.  `decode_zone`
is a (center, radius) pair. -/
structure Params where
  robot_speed : ℝ
  pickup_time : ℝ
  match_time : ℝ
  auton_time : ℝ
  points_per_artifact : ℝ
  decode_zone : Point × ℝ
  decode_bonus : ℝ
  auton_multiplier : ℝ

/-- One entry of the `visited` list (strategy.py lines 76-85). -/
@[ext] structure VisitRecord where
  pos : Point
  travel_time : ℝ
  pickup_time : ℝ
  time_at_pickup : ℝ
  in_auton : Bool
  base_points : ℝ
  bonus_points : ℝ
  gained : ℝ

/-- State of the greedy loop when it terminates: the local variables
`visited`, `score`, `t` and the remaining `artifacts` list of
`compute_strategy` (strategy.py lines 35-44). -/
structure LoopOut where
  visited : List VisitRecord
  score : ℝ
  t : ℝ
  artifacts : List Point

/-- The dict returned by `compute_strategy` (strategy.py lines 92-98). -/
structure StrategyResult where
  visited : List VisitRecord
  expected_score : ℝ
  used_time : ℝ
  remaining_artifacts : ℕ
  params : Params

/-- The one exception reachable on finite inputs: `ZeroDivisionError`
from `d / speed` (strategy.py line 49). -/
inductive StrategyError where
  | zeroDivisionError
deriving DecidableEq

/-- Helper for `nearest`: scans the list keeping the current best
artifact and its distance, replacing the best only on a strictly
smaller distance, so the first-listed artifact wins ties. -/
noncomputable def nearestAux (pos : Point) (best : Point) (bestD : ℝ) :
    List Point → Point
  | [] => best
  | a :: rest =>
    if euclid pos a < bestD then nearestAux pos a (euclid pos a) rest
    else nearestAux pos best bestD rest

/-- The artifact `target` selected at strategy.py lines 46-48:
`dlist = [(euclid(pos, a), a) for a in artifacts]` is sorted by a
stable sort keyed on the distance only, and `dlist[0]` is taken, so the
selected artifact is the first-listed one attaining the minimum
distance; `nearestAux` computes exactly that element. -/
noncomputable def nearest (pos : Point) : List Point → Point
  | [] => pos
  | a :: rest => nearestAux pos a (euclid pos a) rest

theorem nearestAux_mem (pos : Point) :
    ∀ (l : List Point) (b : Point) (d : ℝ),
      nearestAux pos b d l = b ∨ nearestAux pos b d l ∈ l := by
  intro l
  induction l with
  | nil => intro b d; left; rfl
  | cons a rest ih =>
    intro b d
    by_cases h : euclid pos a < d
    · rcases ih a (euclid pos a) with h1 | h1
      · right; rw [nearestAux, if_pos h, h1]; exact List.mem_cons_self a rest
      · right; rw [nearestAux, if_pos h]; exact List.mem_cons_of_mem a h1
    · rcases ih b d with h1 | h1
      · left; rw [nearestAux, if_neg h, h1]
      · right; rw [nearestAux, if_neg h]; exact List.mem_cons_of_mem a h1

theorem nearest_mem (pos a : Point) (rest : List Point) :
    nearest pos (a :: rest) ∈ a :: rest := by
  rcases nearestAux_mem pos rest a (euclid pos a) with h | h
  · rw [nearest, h]; exact List.mem_cons_self a rest
  · rw [nearest]; exact List.mem_cons_of_mem a h

/-- The `VisitRecord` built by one committed loop iteration
(strategy.py lines 55-85), as a function of the position and elapsed
time at the start of the iteration and the selected target. -/
noncomputable def stepRecord (p : Params) (pos : Point) (t : ℝ) (target : Point) :
    VisitRecord :=
  let travel_time := euclid pos target / p.robot_speed
  let t1 := t + travel_time
  let in_auton := decide (t1 ≤ p.auton_time)
  let base := p.points_per_artifact
  let bonus := if euclid target p.decode_zone.1 ≤ p.decode_zone.2
    then p.decode_bonus else 0
  let gained := if in_auton then (base + bonus) * p.auton_multiplier
    else base + bonus
  { pos := target, travel_time := travel_time, pickup_time := p.pickup_time,
    time_at_pickup := t1 + p.pickup_time, in_auton := in_auton,
    base_points := base, bonus_points := bonus, gained := gained }

/-- The greedy `while artifacts:` loop (strategy.py lines 44-88), with
the local state as explicit arguments.  `ZeroDivisionError` from
`d / speed` is raised before the budget check, exactly as in the
source (line 49 precedes line 52). -/
noncomputable def loop (p : Params) (pos : Point) (t score : ℝ)
    (visited : List VisitRecord) (artifacts : List Point) :
    Except StrategyError LoopOut :=
  match artifacts with
  | [] => .ok ⟨visited, score, t, []⟩
  | a :: rest =>
    let target := nearest pos (a :: rest)
    if p.robot_speed = 0 then .error .zeroDivisionError
    else if t + (euclid pos target / p.robot_speed + p.pickup_time) > p.match_time
    then .ok ⟨visited, score, t, a :: rest⟩
    else
      let r := stepRecord p pos t target
      loop p target r.time_at_pickup (score + r.gained) (visited ++ [r])
        ((a :: rest).erase target)
termination_by artifacts.length
decreasing_by
  rw [List.length_erase_of_mem (nearest_mem pos a rest)]
  simp

/-- `compute_strategy` (strategy.py lines 11-98): run the greedy loop
from the start position with elapsed time 0, score 0, empty visited
list and a copy of the artifact list, then package the returned dict. -/
noncomputable def compute_strategy (start : Point)
    (artifact_positions : List Point) (p : Params) :
    Except StrategyError StrategyResult :=
  match loop p start 0 0 [] artifact_positions with
  | .error e => .error e
  | .ok out => .ok ⟨out.visited, out.score, out.t, out.artifacts.length, p⟩

theorem loop_nil {p : Params} {pos : Point} {t score : ℝ}
    {visited : List VisitRecord} :
    loop p pos t score visited [] = .ok ⟨visited, score, t, []⟩ := by
  rw [loop]

theorem loop_cons_err {p : Params} {pos : Point} {t score : ℝ}
    {visited : List VisitRecord} {a : Point} {rest : List Point}
    (hs : p.robot_speed = 0) :
    loop p pos t score visited (a :: rest) = .error .zeroDivisionError := by
  rw [loop, if_pos hs]

theorem loop_cons_stop {p : Params} {pos : Point} {t score : ℝ}
    {visited : List VisitRecord} {a : Point} {rest : List Point}
    (hs : p.robot_speed ≠ 0)
    (hgt : t + (euclid pos (nearest pos (a :: rest)) / p.robot_speed + p.pickup_time)
      > p.match_time) :
    loop p pos t score visited (a :: rest) = .ok ⟨visited, score, t, a :: rest⟩ := by
  rw [loop, if_neg hs, if_pos hgt]

theorem loop_cons_go {p : Params} {pos : Point} {t score : ℝ}
    {visited : List VisitRecord} {a : Point} {rest : List Point}
    (hs : p.robot_speed ≠ 0)
    (hle : ¬ (t + (euclid pos (nearest pos (a :: rest)) / p.robot_speed + p.pickup_time)
      > p.match_time)) :
    loop p pos t score visited (a :: rest) =
      loop p (nearest pos (a :: rest))
        (stepRecord p pos t (nearest pos (a :: rest))).time_at_pickup
        (score + (stepRecord p pos t (nearest pos (a :: rest))).gained)
        (visited ++ [stepRecord p pos t (nearest pos (a :: rest))])
        ((a :: rest).erase (nearest pos (a :: rest))) := by
  rw [loop, if_neg hs, if_neg hle]

theorem loop_isOk {p : Params} (hs : p.robot_speed ≠ 0) (pos : Point)
    (t score : ℝ) (visited : List VisitRecord) (artifacts : List Point) :
    (loop p pos t score visited artifacts).isOk = true := by
  induction pos, t, score, visited, artifacts using loop.induct p with
  | case1 pos t score visited => rw [loop_nil]; rfl
  | case2 pos t score visited a rest h0 => exact absurd h0 hs
  | case3 pos t score visited a rest target h0 hgt => rw [loop_cons_stop hs hgt]; rfl
  | case4 pos t score visited a rest target h0 hle r ih => rw [loop_cons_go hs hle]; exact ih

theorem loop_counts {p : Params} {pos : Point} {t score : ℝ}
    {visited : List VisitRecord} {artifacts : List Point} {out : LoopOut}
    (h : loop p pos t score visited artifacts = .ok out) :
    out.visited.length + out.artifacts.length = visited.length + artifacts.length := by
  induction pos, t, score, visited, artifacts using loop.induct p with
  | case1 pos t score visited =>
    rw [loop_nil] at h
    simp only [Except.ok.injEq] at h
    subst h; simp
  | case2 pos t score visited a rest h0 =>
    rw [loop_cons_err h0] at h; exact absurd h (by simp)
  | case3 pos t score visited a rest target h0 hgt =>
    rw [loop_cons_stop h0 hgt] at h
    simp only [Except.ok.injEq] at h
    subst h; simp
  | case4 pos t score visited a rest target h0 hle r ih =>
    rw [loop_cons_go h0 hle] at h
    have hrec := ih h
    have hlen : ((a :: rest).erase target).length = rest.length := by
      rw [List.length_erase_of_mem
        (show target ∈ a :: rest from nearest_mem pos a rest)]
      simp
    rw [hrec, hlen]
    simp only [List.length_append, List.length_cons, List.length_singleton,
      List.length_nil]
    omega

theorem perm_cons_erase_of_mem {x : Point} :
    ∀ {l : List Point}, x ∈ l → (x :: l.erase x).Perm l := by
  intro l
  induction l with
  | nil => intro h; exact absurd h (List.not_mem_nil x)
  | cons a rest ih =>
    intro h
    by_cases hxa : a = x
    · subst hxa
      rw [List.erase_cons_head]
    · have hbeq : ¬ (a == x) = true := by
        simp only [beq_iff_eq]
        exact hxa
      rw [List.erase_cons_tail hbeq]
      have hmem : x ∈ rest := by
        rcases List.mem_cons.mp h with h1 | h1
        · exact absurd h1.symm hxa
        · exact h1
      exact (List.Perm.swap a x (rest.erase x)).trans (List.Perm.cons a (ih hmem))

theorem cons_erase_coe {x : Point} {l : List Point} (h : x ∈ l) :
    (x ::ₘ (↑(l.erase x) : Multiset Point)) = ↑l := by
  rw [Multiset.cons_coe, Multiset.coe_eq_coe]
  exact perm_cons_erase_of_mem h

theorem loop_multiset {p : Params} {pos : Point} {t score : ℝ}
    {visited : List VisitRecord} {artifacts : List Point} {out : LoopOut}
    (h : loop p pos t score visited artifacts = .ok out) :
    (↑(out.visited.map VisitRecord.pos) + ↑out.artifacts : Multiset Point) =
      ↑(visited.map VisitRecord.pos) + ↑artifacts := by
  induction pos, t, score, visited, artifacts using loop.induct p with
  | case1 pos t score visited =>
    rw [loop_nil] at h
    simp only [Except.ok.injEq] at h
    subst h; simp
  | case2 pos t score visited a rest h0 =>
    rw [loop_cons_err h0] at h; exact absurd h (by simp)
  | case3 pos t score visited a rest target h0 hgt =>
    rw [loop_cons_stop h0 hgt] at h
    simp only [Except.ok.injEq] at h
    subst h; simp
  | case4 pos t score visited a rest target h0 hle r ih =>
    rw [loop_cons_go h0 hle] at h
    rw [ih h]
    have hmem : target ∈ a :: rest := nearest_mem pos a rest
    have hsplit : (↑(List.map VisitRecord.pos (visited ++ [r])) : Multiset Point)
        = ↑(List.map VisitRecord.pos visited) + {r.pos} := by
      rw [List.map_append, ← Multiset.coe_add,
        show List.map VisitRecord.pos [r] = [r.pos] from rfl,
        Multiset.coe_singleton]
    rw [hsplit, add_assoc, Multiset.singleton_add]
    have hrpos : r.pos = target := rfl
    rw [hrpos, cons_erase_coe hmem]

theorem loop_sublist {p : Params} {pos : Point} {t score : ℝ}
    {visited : List VisitRecord} {artifacts : List Point} {out : LoopOut}
    (h : loop p pos t score visited artifacts = .ok out) :
    out.artifacts.Sublist artifacts := by
  induction pos, t, score, visited, artifacts using loop.induct p with
  | case1 pos t score visited =>
    rw [loop_nil] at h
    simp only [Except.ok.injEq] at h
    subst h; simp
  | case2 pos t score visited a rest h0 =>
    rw [loop_cons_err h0] at h; exact absurd h (by simp)
  | case3 pos t score visited a rest target h0 hgt =>
    rw [loop_cons_stop h0 hgt] at h
    simp only [Except.ok.injEq] at h
    subst h
    exact List.Sublist.refl _
  | case4 pos t score visited a rest target h0 hle r ih =>
    rw [loop_cons_go h0 hle] at h
    exact (ih h).trans (List.erase_sublist _ _)

theorem loop_budget {p : Params} (hs : 0 < p.robot_speed)
    (hp : 0 ≤ p.pickup_time) :
    ∀ {pos : Point} {t score : ℝ} {visited : List VisitRecord}
      {artifacts : List Point} {out : LoopOut},
      t ≤ p.match_time → (∀ rec ∈ visited, rec.time_at_pickup ≤ t) →
      loop p pos t score visited artifacts = .ok out →
      out.t ≤ p.match_time ∧ ∀ rec ∈ out.visited, rec.time_at_pickup ≤ out.t := by
  intro pos t score visited artifacts out ht hv h
  induction pos, t, score, visited, artifacts using loop.induct p with
  | case1 pos t score visited =>
    rw [loop_nil] at h
    simp only [Except.ok.injEq] at h
    subst h; exact ⟨ht, hv⟩
  | case2 pos t score visited a rest h0 => exact absurd h0 (ne_of_gt hs)
  | case3 pos t score visited a rest target h0 hgt =>
    rw [loop_cons_stop h0 hgt] at h
    simp only [Except.ok.injEq] at h
    subst h; exact ⟨ht, hv⟩
  | case4 pos t score visited a rest target h0 hle r ih =>
    rw [loop_cons_go h0 hle] at h
    have htravel : 0 ≤ euclid pos (nearest pos (a :: rest)) / p.robot_speed :=
      div_nonneg (Real.sqrt_nonneg _) (le_of_lt hs)
    have ht2 : (stepRecord p pos t (nearest pos (a :: rest))).time_at_pickup
        = t + euclid pos (nearest pos (a :: rest)) / p.robot_speed + p.pickup_time :=
      rfl
    have hle2 : (stepRecord p pos t (nearest pos (a :: rest))).time_at_pickup
        ≤ p.match_time := by
      rw [ht2]; push_neg at hle; linarith
    have htt2 : t ≤ (stepRecord p pos t (nearest pos (a :: rest))).time_at_pickup := by
      rw [ht2]; linarith
    refine ih hle2 ?_ h
    intro rec hrec
    rcases List.mem_append.mp hrec with hrec | hrec
    · exact le_trans (hv rec hrec) htt2
    · rw [List.mem_singleton] at hrec
      subst hrec
      exact le_refl _

theorem loop_visited_pred {p : Params} (Q : VisitRecord → Prop)
    (hQ : ∀ (pos : Point) (t : ℝ) (target : Point), Q (stepRecord p pos t target)) :
    ∀ {pos : Point} {t score : ℝ} {visited : List VisitRecord}
      {artifacts : List Point} {out : LoopOut},
      (∀ rec ∈ visited, Q rec) →
      loop p pos t score visited artifacts = .ok out →
      ∀ rec ∈ out.visited, Q rec := by
  intro pos t score visited artifacts out hv h
  induction pos, t, score, visited, artifacts using loop.induct p with
  | case1 pos t score visited =>
    rw [loop_nil] at h
    simp only [Except.ok.injEq] at h
    subst h; exact hv
  | case2 pos t score visited a rest h0 =>
    rw [loop_cons_err h0] at h; exact absurd h (by simp)
  | case3 pos t score visited a rest target h0 hgt =>
    rw [loop_cons_stop h0 hgt] at h
    simp only [Except.ok.injEq] at h
    subst h; exact hv
  | case4 pos t score visited a rest target h0 hle r ih =>
    rw [loop_cons_go h0 hle] at h
    refine ih ?_ h
    intro rec hrec
    rcases List.mem_append.mp hrec with hrec | hrec
    · exact hv rec hrec
    · rw [List.mem_singleton] at hrec
      subst hrec
      exact hQ pos t (nearest pos (a :: rest))

/-- The recorded `time_at_pickup` values form the expected chain: each
record's value is the elapsed time before its iteration plus its own
`travel_time` plus its own `pickup_time`. -/
def chainFrom (t0 : ℝ) : List VisitRecord → Prop
  | [] => True
  | r :: rest =>
    r.time_at_pickup = t0 + r.travel_time + r.pickup_time ∧
      chainFrom r.time_at_pickup rest

/-- Elapsed time after the last record of `v`, starting from `t0`. -/
def endT (t0 : ℝ) : List VisitRecord → ℝ
  | [] => t0
  | r :: rest => endT r.time_at_pickup rest

theorem endT_append (r : VisitRecord) :
    ∀ (v : List VisitRecord) (t0 : ℝ), endT t0 (v ++ [r]) = r.time_at_pickup := by
  intro v
  induction v with
  | nil => intro t0; rfl
  | cons s rest ih => intro t0; exact ih s.time_at_pickup

theorem chainFrom_append (r : VisitRecord) :
    ∀ (v : List VisitRecord) (t0 : ℝ),
      chainFrom t0 (v ++ [r]) ↔ chainFrom t0 v ∧
        r.time_at_pickup = endT t0 v + r.travel_time + r.pickup_time := by
  intro v
  induction v with
  | nil =>
    intro t0
    constructor
    · intro h; exact ⟨trivial, h.1⟩
    · intro h; exact ⟨h.2, trivial⟩
  | cons s rest ih =>
    intro t0
    constructor
    · intro h
      exact ⟨⟨h.1, ((ih s.time_at_pickup).mp h.2).1⟩,
        ((ih s.time_at_pickup).mp h.2).2⟩
    · intro h
      exact ⟨h.1.1, (ih s.time_at_pickup).mpr ⟨h.1.2, h.2⟩⟩

theorem loop_chain {p : Params} (t0 : ℝ) :
    ∀ {pos : Point} {t score : ℝ} {visited : List VisitRecord}
      {artifacts : List Point} {out : LoopOut},
      chainFrom t0 visited → endT t0 visited = t →
      loop p pos t score visited artifacts = .ok out →
      chainFrom t0 out.visited ∧ endT t0 out.visited = out.t := by
  intro pos t score visited artifacts out hc he h
  induction pos, t, score, visited, artifacts using loop.induct p with
  | case1 pos t score visited =>
    rw [loop_nil] at h
    simp only [Except.ok.injEq] at h
    subst h; exact ⟨hc, he⟩
  | case2 pos t score visited a rest h0 =>
    rw [loop_cons_err h0] at h; exact absurd h (by simp)
  | case3 pos t score visited a rest target h0 hgt =>
    rw [loop_cons_stop h0 hgt] at h
    simp only [Except.ok.injEq] at h
    subst h; exact ⟨hc, he⟩
  | case4 pos t score visited a rest target h0 hle r ih =>
    rw [loop_cons_go h0 hle] at h
    refine ih ?_ ?_ h
    · rw [chainFrom_append]
      refine ⟨hc, ?_⟩
      rw [he]
      rfl
    · rw [endT_append]

theorem chain_lt_of_chainFrom {c : ℝ} (hc : 0 < c) :
    ∀ {v : List VisitRecord} {t0 : ℝ}, chainFrom t0 v →
      (∀ r ∈ v, 0 ≤ r.travel_time ∧ r.pickup_time = c) →
      List.Chain (· < ·) t0 (v.map VisitRecord.time_at_pickup) := by
  intro v
  induction v with
  | nil => intro t0 hch hr; exact List.Chain.nil
  | cons s rest ih =>
    intro t0 hch hr
    have hs := hr s (List.mem_cons_self s rest)
    refine List.Chain.cons ?_ (ih hch.2 ?_)
    · rw [hch.1, hs.2]
      linarith [hs.1]
    · intro r hmem
      exact hr r (List.mem_cons_of_mem s hmem)

theorem chain_lt_to_chain_of_map {x : ℝ} {l : List ℝ}
    (h : List.Chain (· < ·) x l) : List.Chain' (· < ·) l := by
  cases l with
  | nil => trivial
  | cons b bs => exact (List.chain_cons.mp h).2

theorem compute_strategy_of_loop {start : Point} {arts : List Point}
    {p : Params} {out : LoopOut} (h : loop p start 0 0 [] arts = .ok out) :
    compute_strategy start arts p
      = .ok ⟨out.visited, out.score, out.t, out.artifacts.length, p⟩ := by
  simp only [compute_strategy, h]

theorem compute_strategy_of_loop_err {start : Point} {arts : List Point}
    {p : Params} {e : StrategyError} (h : loop p start 0 0 [] arts = .error e) :
    compute_strategy start arts p = .error e := by
  simp only [compute_strategy, h]

theorem compute_strategy_ok_elim {start : Point} {arts : List Point}
    {p : Params} {res : StrategyResult}
    (h : compute_strategy start arts p = .ok res) :
    ∃ out : LoopOut, loop p start 0 0 [] arts = .ok out ∧
      res = ⟨out.visited, out.score, out.t, out.artifacts.length, p⟩ := by
  cases hl : loop p start 0 0 [] arts with
  | error e =>
    rw [compute_strategy_of_loop_err hl] at h
    exact absurd h (by simp)
  | ok out =>
    rw [compute_strategy_of_loop hl] at h
    simp only [Except.ok.injEq] at h
    exact ⟨out, rfl, h.symm⟩

theorem ne_of_euclid_ne {pos u v : Point}
    (h : euclid pos u ≠ euclid pos v) : u ≠ v :=
  fun he => h (he ▸ rfl)

theorem nearestAux_le (pos : Point) :
    ∀ (l : List Point) (b : Point),
      euclid pos (nearestAux pos b (euclid pos b) l) ≤ euclid pos b ∧
      ∀ c ∈ l, euclid pos (nearestAux pos b (euclid pos b) l) ≤ euclid pos c := by
  intro l
  induction l with
  | nil =>
    intro b
    exact ⟨le_refl _, by simp⟩
  | cons a rest ih =>
    intro b
    by_cases hab : euclid pos a < euclid pos b
    · rw [nearestAux, if_pos hab]
      refine ⟨le_of_lt (lt_of_le_of_lt (ih a).1 hab), ?_⟩
      intro c hc
      rcases List.mem_cons.mp hc with hc | hc
      · rw [hc]; exact (ih a).1
      · exact (ih a).2 c hc
    · rw [nearestAux, if_neg hab]
      refine ⟨(ih b).1, ?_⟩
      intro c hc
      rcases List.mem_cons.mp hc with hc | hc
      · rw [hc]; exact le_trans (ih b).1 (not_lt.mp hab)
      · exact (ih b).2 c hc

theorem nearestAux_eq_or_lt (pos : Point) :
    ∀ (l : List Point) (b : Point),
      nearestAux pos b (euclid pos b) l = b ∨
        (nearestAux pos b (euclid pos b) l ∈ l ∧
          euclid pos (nearestAux pos b (euclid pos b) l) < euclid pos b) := by
  intro l
  induction l with
  | nil => intro b; left; rfl
  | cons a rest ih =>
    intro b
    by_cases hab : euclid pos a < euclid pos b
    · rw [nearestAux, if_pos hab]
      rcases ih a with h | h
      · right
        exact ⟨by rw [h]; exact List.mem_cons_self a rest, by rw [h]; exact hab⟩
      · right
        exact ⟨List.mem_cons_of_mem a h.1, lt_trans h.2 hab⟩
    · rw [nearestAux, if_neg hab]
      rcases ih b with h | h
      · left; exact h
      · right; exact ⟨List.mem_cons_of_mem a h.1, h.2⟩

theorem indexOf_cons_self_pt (x : Point) (l : List Point) :
    (x :: l).indexOf x = 0 := by
  simp [List.indexOf_cons]

theorem indexOf_cons_ne_pt {x y : Point} (l : List Point) (h : y ≠ x) :
    (y :: l).indexOf x = l.indexOf x + 1 := by
  rw [List.indexOf_cons, show (y == x) = false from beq_eq_false_iff_ne.mpr h]
  rfl

theorem nearestAux_indexOf (pos : Point) :
    ∀ (rest : List Point) (b : Point), ∀ c ∈ b :: rest,
      euclid pos c = euclid pos (nearestAux pos b (euclid pos b) rest) →
      (b :: rest).indexOf (nearestAux pos b (euclid pos b) rest)
        ≤ (b :: rest).indexOf c := by
  intro rest
  induction rest with
  | nil =>
    intro b c hc heq
    have : c = b := by simpa using hc
    subst this
    exact le_refl _
  | cons a rest2 ih =>
    intro b c hc heq
    by_cases hab : euclid pos a < euclid pos b
    · rw [nearestAux, if_pos hab] at heq ⊢
      have hrb : euclid pos (nearestAux pos a (euclid pos a) rest2) < euclid pos b :=
        lt_of_le_of_lt (nearestAux_le pos rest2 a).1 hab
      have hcb : c ≠ b := ne_of_euclid_ne (by rw [heq]; exact ne_of_lt hrb)
      have hnb : nearestAux pos a (euclid pos a) rest2 ≠ b :=
        ne_of_euclid_ne (ne_of_lt hrb)
      have hc2 : c ∈ a :: rest2 := by
        rcases List.mem_cons.mp hc with h1 | h1
        · exact absurd h1 hcb
        · exact h1
      rw [indexOf_cons_ne_pt _ hnb.symm, indexOf_cons_ne_pt _ hcb.symm]
      exact Nat.succ_le_succ (ih a c hc2 heq)
    · rw [nearestAux, if_neg hab] at heq ⊢
      rcases nearestAux_eq_or_lt pos rest2 b with hr | hr
      · rw [hr]
        rw [indexOf_cons_self_pt]
        exact Nat.zero_le _
      · have hba : euclid pos b ≤ euclid pos a := not_lt.mp hab
        have hrb : euclid pos (nearestAux pos b (euclid pos b) rest2) < euclid pos b :=
          hr.2
        have hnb : nearestAux pos b (euclid pos b) rest2 ≠ b :=
          ne_of_euclid_ne (ne_of_lt hrb)
        have hna : nearestAux pos b (euclid pos b) rest2 ≠ a :=
          ne_of_euclid_ne (ne_of_lt (lt_of_lt_of_le hrb hba))
        have hcb : c ≠ b := ne_of_euclid_ne (by rw [heq]; exact ne_of_lt hrb)
        have hca : c ≠ a :=
          ne_of_euclid_ne (by rw [heq]; exact ne_of_lt (lt_of_lt_of_le hrb hba))
        have hc2 : c ∈ rest2 := by
          rcases List.mem_cons.mp hc with h1 | h1
          · exact absurd h1 hcb
          · rcases List.mem_cons.mp h1 with h2 | h2
            · exact absurd h2 hca
            · exact h2
        have hmain := ih b c (List.mem_cons_of_mem b hc2) heq
        rw [indexOf_cons_ne_pt _ hnb.symm, indexOf_cons_ne_pt _ hcb.symm] at hmain
        rw [indexOf_cons_ne_pt _ hnb.symm, indexOf_cons_ne_pt _ hna.symm,
          indexOf_cons_ne_pt _ hcb.symm, indexOf_cons_ne_pt _ hca.symm]
        exact Nat.succ_le_succ (Nat.succ_le_succ (Nat.succ_le_succ_iff.mp hmain))

theorem nearest_min (pos a : Point) (rest : List Point) :
    ∀ c ∈ a :: rest, euclid pos (nearest pos (a :: rest)) ≤ euclid pos c := by
  intro c hc
  rcases List.mem_cons.mp hc with hc | hc
  · rw [hc, nearest]; exact (nearestAux_le pos rest a).1
  · rw [nearest]; exact (nearestAux_le pos rest a).2 c hc

theorem nearest_indexOf_le (pos a : Point) (rest : List Point) :
    ∀ c ∈ a :: rest, euclid pos c = euclid pos (nearest pos (a :: rest)) →
      (a :: rest).indexOf (nearest pos (a :: rest)) ≤ (a :: rest).indexOf c := by
  intro c hc heq
  rw [nearest] at heq ⊢
  exact nearestAux_indexOf pos rest a c hc heq

theorem euclid_vert (x y1 y2 : ℝ) : euclid (x, y1) (x, y2) = |y1 - y2| := by
  show Real.sqrt ((x - x) ^ 2 + (y1 - y2) ^ 2) = |y1 - y2|
  rw [sub_self, show ((0:ℝ)) ^ 2 + (y1 - y2) ^ 2 = (y1 - y2) ^ 2 by ring]
  exact Real.sqrt_sq_eq_abs _

theorem euclid_horiz (x1 x2 y : ℝ) : euclid (x1, y) (x2, y) = |x1 - x2| := by
  show Real.sqrt ((x1 - x2) ^ 2 + (y - y) ^ 2) = |x1 - x2|
  rw [sub_self, show (x1 - x2) ^ 2 + ((0:ℝ)) ^ 2 = (x1 - x2) ^ 2 by ring]
  exact Real.sqrt_sq_eq_abs _

theorem euclid345 : euclid ((0:ℝ), (0:ℝ)) ((3:ℝ), (4:ℝ)) = 5 := by
  show Real.sqrt ((0 - 3) ^ 2 + (0 - 4) ^ 2) = 5
  rw [show ((0:ℝ) - 3) ^ 2 + ((0:ℝ) - 4) ^ 2 = 5 ^ 2 by norm_num]
  rw [Real.sqrt_sq]
  norm_num

/-- Scenario A: one target at (3,4), speed 1, pickup 3, budget 100,
autonomous window 5, bonus region centred (3,0) with radius 4 (the
target sits exactly on its boundary), multiplier 2. -/
noncomputable def pA : Params := ⟨1, 3, 100, 5, 5, ((3, 0), 4), 3, 2⟩

noncomputable def recA : VisitRecord := ⟨(3, 4), 5, 3, 8, true, 5, 3, 16⟩

noncomputable def outA : LoopOut := ⟨[recA], 16, 8, []⟩

noncomputable def resA : StrategyResult := ⟨[recA], 16, 8, 0, pA⟩

theorem stepA : stepRecord pA ((0:ℝ), (0:ℝ)) 0 ((3:ℝ), (4:ℝ)) = recA := by
  unfold stepRecord recA pA
  simp only [euclid345, show euclid ((3:ℝ), (4:ℝ)) ((3:ℝ), (0:ℝ)) = 4 from by
    rw [euclid_vert]; norm_num]
  norm_num

theorem loopA : loop pA ((0:ℝ), (0:ℝ)) 0 0 [] [((3:ℝ), (4:ℝ))] = .ok outA := by
  have h1 : nearest ((0:ℝ), (0:ℝ)) [((3:ℝ), (4:ℝ))] = (3, 4) := rfl
  rw [loop_cons_go (by norm_num [pA]) (by rw [h1, euclid345]; norm_num [pA])]
  rw [h1, stepA, List.erase_cons_head, loop_nil]
  unfold outA
  norm_num [recA]

theorem runA : compute_strategy ((0:ℝ), (0:ℝ)) [((3:ℝ), (4:ℝ))] pA = .ok resA := by
  rw [compute_strategy_of_loop loopA]
  unfold outA resA
  norm_num [recA]

/-- Scenario B: two targets straight above the start, positive pickup
time, autonomous window 0, bonus region far away. -/
noncomputable def pB : Params := ⟨1, 1, 100, 0, 5, ((0, 50), 2), 3, 2⟩

noncomputable def recB1 : VisitRecord := ⟨(0, 3), 3, 1, 4, false, 5, 0, 5⟩

noncomputable def recB2 : VisitRecord := ⟨(0, 10), 7, 1, 12, false, 5, 0, 5⟩

noncomputable def outB : LoopOut := ⟨[recB1, recB2], 10, 12, []⟩

noncomputable def resB : StrategyResult := ⟨[recB1, recB2], 10, 12, 0, pB⟩

theorem nearB1 : nearest ((0:ℝ), (0:ℝ)) [((0:ℝ), (3:ℝ)), ((0:ℝ), (10:ℝ))]
    = (0, 3) := by
  show nearestAux ((0:ℝ), (0:ℝ)) (0, 3) (euclid (0, 0) (0, 3)) [(0, 10)] = (0, 3)
  rw [nearestAux, if_neg]
  · rfl
  · rw [euclid_vert, euclid_vert]
    norm_num

theorem stepB1 : stepRecord pB ((0:ℝ), (0:ℝ)) 0 ((0:ℝ), (3:ℝ)) = recB1 := by
  unfold stepRecord recB1 pB
  norm_num [euclid_vert, decide_eq_false_iff_not, -Prod.mk_zero_zero]

theorem stepB2 : stepRecord pB ((0:ℝ), (3:ℝ)) 4 ((0:ℝ), (10:ℝ)) = recB2 := by
  unfold stepRecord recB2 pB
  norm_num [euclid_vert, decide_eq_false_iff_not, -Prod.mk_zero_zero]

theorem loopB : loop pB ((0:ℝ), (0:ℝ)) 0 0 []
    [((0:ℝ), (3:ℝ)), ((0:ℝ), (10:ℝ))] = .ok outB := by
  rw [loop_cons_go (by norm_num [pB])
    (by rw [nearB1, euclid_vert]; norm_num [pB])]
  rw [nearB1, stepB1, List.erase_cons_head]
  have h2 : nearest ((0:ℝ), (3:ℝ)) [((0:ℝ), (10:ℝ))] = (0, 10) := rfl
  rw [show recB1.time_at_pickup = (4:ℝ) from rfl]
  rw [loop_cons_go (by norm_num [pB])
    (by rw [h2, euclid_vert]; norm_num [pB])]
  rw [h2, stepB2, List.erase_cons_head, loop_nil]
  unfold outB
  norm_num [recB1, recB2]

theorem runB : compute_strategy ((0:ℝ), (0:ℝ))
    [((0:ℝ), (3:ℝ)), ((0:ℝ), (10:ℝ))] pB = .ok resB := by
  rw [compute_strategy_of_loop loopB]
  unfold outB resB
  norm_num

/-- Scenario D: negative pickup time (violating the spec's claimed
precondition check), one target; the planner runs normally. -/
noncomputable def pD : Params := ⟨1, -1, 10, 30, 5, ((0, 50), 2), 3, 2⟩

noncomputable def recD : VisitRecord := ⟨(0, 3), 3, -1, 2, true, 5, 0, 10⟩

noncomputable def outD : LoopOut := ⟨[recD], 10, 2, []⟩

noncomputable def resD : StrategyResult := ⟨[recD], 10, 2, 0, pD⟩

theorem stepD : stepRecord pD ((0:ℝ), (0:ℝ)) 0 ((0:ℝ), (3:ℝ)) = recD := by
  unfold stepRecord recD pD
  norm_num [euclid_vert, -Prod.mk_zero_zero]

theorem loopD : loop pD ((0:ℝ), (0:ℝ)) 0 0 [] [((0:ℝ), (3:ℝ))] = .ok outD := by
  have h1 : nearest ((0:ℝ), (0:ℝ)) [((0:ℝ), (3:ℝ))] = (0, 3) := rfl
  rw [loop_cons_go (by norm_num [pD]) (by rw [h1, euclid_vert]; norm_num [pD])]
  rw [h1, stepD, List.erase_cons_head, loop_nil]
  unfold outD
  norm_num [recD]

theorem runD : compute_strategy ((0:ℝ), (0:ℝ)) [((0:ℝ), (3:ℝ))] pD = .ok resD := by
  rw [compute_strategy_of_loop loopD]
  unfold outD resD
  norm_num

/-- Scenario F: two coincident targets at the start position with
pickup time 0: both visits happen at elapsed time 0. -/
noncomputable def pF : Params := ⟨1, 0, 10, 0, 5, ((0, 50), 2), 3, 2⟩

noncomputable def recF : VisitRecord := ⟨(0, 0), 0, 0, 0, true, 5, 0, 10⟩

noncomputable def outF : LoopOut := ⟨[recF, recF], 20, 0, []⟩

noncomputable def resF : StrategyResult := ⟨[recF, recF], 20, 0, 0, pF⟩

theorem nearF : nearest ((0:ℝ), (0:ℝ)) [((0:ℝ), (0:ℝ)), ((0:ℝ), (0:ℝ))]
    = (0, 0) := by
  show nearestAux ((0:ℝ), (0:ℝ)) (0, 0) (euclid (0, 0) (0, 0)) [(0, 0)] = (0, 0)
  rw [nearestAux, if_neg]
  · rfl
  · exact lt_irrefl _

theorem stepF : stepRecord pF ((0:ℝ), (0:ℝ)) 0 ((0:ℝ), (0:ℝ)) = recF := by
  unfold stepRecord recF pF
  norm_num [euclid_vert, -Prod.mk_zero_zero]

theorem loopF : loop pF ((0:ℝ), (0:ℝ)) 0 0 []
    [((0:ℝ), (0:ℝ)), ((0:ℝ), (0:ℝ))] = .ok outF := by
  rw [loop_cons_go (by norm_num [pF])
    (by rw [nearF, euclid_vert]; norm_num [pF])]
  rw [nearF, stepF, List.erase_cons_head]
  have h2 : nearest ((0:ℝ), (0:ℝ)) [((0:ℝ), (0:ℝ))] = (0, 0) := rfl
  rw [show recF.time_at_pickup = (0:ℝ) from rfl]
  rw [loop_cons_go (by norm_num [pF])
    (by rw [h2, euclid_vert]; norm_num [pF])]
  rw [h2, stepF, List.erase_cons_head, loop_nil]
  unfold outF
  norm_num [recF]

theorem runF : compute_strategy ((0:ℝ), (0:ℝ))
    [((0:ℝ), (0:ℝ)), ((0:ℝ), (0:ℝ))] pF = .ok resF := by
  rw [compute_strategy_of_loop loopF]
  unfold outF resF
  norm_num

/-- Scenario G: two targets equidistant from the start, one listed
first; the planner must take the first-listed one first. -/
noncomputable def pG : Params := ⟨1, 1, 100, 0, 5, ((0, 0), 1), 3, 2⟩

noncomputable def recG1 : VisitRecord := ⟨(5, 0), 5, 1, 6, false, 5, 0, 5⟩

noncomputable def recG2 : VisitRecord := ⟨(-5, 0), 10, 1, 17, false, 5, 0, 5⟩

noncomputable def outG : LoopOut := ⟨[recG1, recG2], 10, 17, []⟩

theorem nearG : nearest ((0:ℝ), (0:ℝ)) [((5:ℝ), (0:ℝ)), ((-5:ℝ), (0:ℝ))]
    = (5, 0) := by
  show nearestAux ((0:ℝ), (0:ℝ)) (5, 0) (euclid (0, 0) (5, 0)) [(-5, 0)] = (5, 0)
  rw [nearestAux, if_neg]
  · rfl
  · rw [euclid_horiz, euclid_horiz]
    norm_num

theorem stepG1 : stepRecord pG ((0:ℝ), (0:ℝ)) 0 ((5:ℝ), (0:ℝ)) = recG1 := by
  unfold stepRecord recG1 pG
  norm_num [euclid_horiz, decide_eq_false_iff_not, -Prod.mk_zero_zero]

theorem stepG2 : stepRecord pG ((5:ℝ), (0:ℝ)) 6 ((-5:ℝ), (0:ℝ)) = recG2 := by
  unfold stepRecord recG2 pG
  norm_num [euclid_horiz, decide_eq_false_iff_not, -Prod.mk_zero_zero]

theorem loopG : loop pG ((0:ℝ), (0:ℝ)) 0 0 []
    [((5:ℝ), (0:ℝ)), ((-5:ℝ), (0:ℝ))] = .ok outG := by
  rw [loop_cons_go (by norm_num [pG])
    (by rw [nearG, euclid_horiz]; norm_num [pG])]
  rw [nearG, stepG1, List.erase_cons_head]
  have h2 : nearest ((5:ℝ), (0:ℝ)) [((-5:ℝ), (0:ℝ))] = (-5, 0) := rfl
  rw [show recG1.time_at_pickup = (6:ℝ) from rfl]
  rw [loop_cons_go (by norm_num [pG])
    (by rw [h2, euclid_horiz]; norm_num [pG])]
  rw [h2, stepG2, List.erase_cons_head, loop_nil]
  unfold outG
  norm_num [recG1, recG2]

/-- Parameters with `robot_speed = 0` (used to exhibit the division-by-zero
failure). -/
noncomputable def pE : Params := ⟨0, 3, 100, 30, 5, ((0, 50), 2), 3, 2⟩

/-- Parameters whose budget (2s) cannot fit the nearest target
(travel 3s + pickup 1s). -/
noncomputable def pC : Params := ⟨1, 1, 2, 0, 5, ((0, 50), 2), 3, 2⟩

/-- Claim C1: for every start point, target list and parameter set with
speed > 0, totalTime ≥ 0 and pickupDuration ≥ 0, the returned plan has
used_time ≤ totalTime, and no VisitRecord overruns the budget (every
recorded time_at_pickup is ≤ totalTime). -/
theorem C1_budget_invariant {start : Point} {arts : List Point} {p : Params}
    (hs : 0 < p.robot_speed) (hp : 0 ≤ p.pickup_time) (ht : 0 ≤ p.match_time)
    {res : StrategyResult} (hr : compute_strategy start arts p = .ok res) :
    res.used_time ≤ p.match_time ∧
      ∀ rec ∈ res.visited, rec.time_at_pickup ≤ p.match_time := by
  obtain ⟨out, hloop, hres⟩ := compute_strategy_ok_elim hr
  subst hres
  have hb := loop_budget hs hp ht (by simp) hloop
  exact ⟨hb.1, fun rec h => le_trans (hb.2 rec h) hb.1⟩

/-- Witness for C1 at Scenario A. -/
theorem C1_budget_invariant_witness :
    resA.used_time ≤ pA.match_time ∧
      ∀ rec ∈ resA.visited, rec.time_at_pickup ≤ pA.match_time :=
  C1_budget_invariant (by norm_num [pA]) (by norm_num [pA]) (by norm_num [pA]) runA

/-- Claim C2: for every input the number of VisitRecords plus the
returned remaining_artifacts count equals the length of the original
target list, and (at the level of the loop's final state) the visited
positions and the remaining artifacts together are exactly the original
target list as a multiset: each input target is counted in exactly one
of the two. -/
theorem C2_conservation {start : Point} {arts : List Point} {p : Params}
    {res : StrategyResult} (hr : compute_strategy start arts p = .ok res)
    {out : LoopOut} (hout : loop p start 0 0 [] arts = .ok out) :
    res.visited.length + res.remaining_artifacts = arts.length ∧
      (↑(out.visited.map VisitRecord.pos) + ↑out.artifacts : Multiset Point)
        = ↑arts := by
  obtain ⟨out2, hloop, hres⟩ := compute_strategy_ok_elim hr
  subst hres
  constructor
  · simpa using loop_counts hloop
  · simpa using loop_multiset hout

/-- Witness for C2 at Scenario A. -/
theorem C2_conservation_witness :
    resA.visited.length + resA.remaining_artifacts = 1 ∧
      (↑(outA.visited.map VisitRecord.pos) + ↑outA.artifacts : Multiset Point)
        = ↑[((3:ℝ), (4:ℝ))] :=
  C2_conservation runA loopA

/-- Counterexample to claim C3 as stated: with pickupDuration = -1 < 0
(one of the conditions the claim says must fail with InvalidParameter
before any planning work), compute_strategy instead returns a normal
plan that visits the target. -/
theorem C3_counterexample :
    pD.pickup_time < 0 ∧
      compute_strategy ((0:ℝ), (0:ℝ)) [((0:ℝ), (3:ℝ))] pD = .ok resD ∧
      resD.visited.length = 1 :=
  ⟨by norm_num [pD], runD, rfl⟩

/-- Claim C3 (amended): compute_strategy performs no parameter
validation and has no InvalidParameter error; with pickupDuration < 0,
totalTime < 0, or autonomousWindow outside [0, totalTime] it proceeds
normally.  Its only failure is a ZeroDivisionError, raised inside the
first loop iteration exactly when speed = 0 and the target list is
non-empty; whenever speed ≠ 0 it returns a plan normally. -/
theorem C3_no_validation (start : Point) (arts : List Point) (p : Params) :
    (p.robot_speed = 0 → arts ≠ [] →
      compute_strategy start arts p = .error .zeroDivisionError) ∧
    (p.robot_speed ≠ 0 → (compute_strategy start arts p).isOk = true) := by
  constructor
  · intro hs hne
    cases arts with
    | nil => exact absurd rfl hne
    | cons a rest => exact compute_strategy_of_loop_err (loop_cons_err hs)
  · intro hs
    cases hl : loop p start 0 0 [] arts with
    | error e =>
      have h := loop_isOk hs start 0 0 [] arts
      rw [hl] at h
      exact Bool.noConfusion h
    | ok out =>
      rw [compute_strategy_of_loop hl]
      rfl

/-- Witness for C3 (amended): the zero-speed error case and a normal
case. -/
theorem C3_no_validation_witness :
    compute_strategy ((0:ℝ), (0:ℝ)) [((1:ℝ), (1:ℝ))] pE
        = .error .zeroDivisionError ∧
      (compute_strategy ((0:ℝ), (0:ℝ)) [((3:ℝ), (4:ℝ))] pA).isOk = true :=
  ⟨(C3_no_validation ((0:ℝ), (0:ℝ)) [((1:ℝ), (1:ℝ))] pE).1 rfl (by simp),
   (C3_no_validation ((0:ℝ), (0:ℝ)) [((3:ℝ), (4:ℝ))] pA).2 (by norm_num [pA])⟩

/-- Claim C4: for every VisitRecord produced, the in_auton flag holds
iff the elapsed time at arrival — time_at_pickup minus pickup_time,
i.e. before the pickup duration was added — is ≤ the autonomous window
(closed upper bound). -/
theorem C4_in_auton_iff {start : Point} {arts : List Point} {p : Params}
    {res : StrategyResult} (hr : compute_strategy start arts p = .ok res) :
    ∀ rec ∈ res.visited,
      rec.in_auton = true ↔
        rec.time_at_pickup - rec.pickup_time ≤ p.auton_time := by
  obtain ⟨out, hloop, hres⟩ := compute_strategy_ok_elim hr
  subst hres
  refine loop_visited_pred _ ?_ (by simp) hloop
  intro pos t target
  show decide (t + euclid pos target / p.robot_speed ≤ p.auton_time) = true ↔
    t + euclid pos target / p.robot_speed + p.pickup_time - p.pickup_time
      ≤ p.auton_time
  rw [decide_eq_true_eq, add_sub_cancel_right]

/-- Witness for C4 at Scenario A: arrival at exactly the window bound
(8 - 3 = 5 = auton_time) is classified in-autonomous. -/
theorem C4_in_auton_iff_witness :
    recA.in_auton = true ∧
      recA.time_at_pickup - recA.pickup_time = pA.auton_time :=
  ⟨(C4_in_auton_iff runA recA (by simp [resA])).mpr (by norm_num [recA, pA]),
   by norm_num [recA, pA]⟩

/-- Claim C5: at each step the loop selects a remaining target of
minimum Euclidean distance from the current position, deterministically
taking the first-listed on ties (the selected target's index is ≤ that
of any equidistant target), and the remaining list stays an in-order
sublist of the list the step started from, so first-listed means first
in input order. -/
theorem C5_greedy_selection {p : Params} {pos a : Point} {rest : List Point}
    {t score : ℝ} {visited : List VisitRecord} {out : LoopOut}
    (hout : loop p pos t score visited (a :: rest) = .ok out) :
    nearest pos (a :: rest) ∈ a :: rest ∧
      (∀ b ∈ a :: rest, euclid pos (nearest pos (a :: rest)) ≤ euclid pos b) ∧
      (∀ b ∈ a :: rest, euclid pos b = euclid pos (nearest pos (a :: rest)) →
        (a :: rest).indexOf (nearest pos (a :: rest)) ≤ (a :: rest).indexOf b) ∧
      out.artifacts.Sublist (a :: rest) :=
  ⟨nearest_mem pos a rest, nearest_min pos a rest, nearest_indexOf_le pos a rest,
    loop_sublist hout⟩

/-- Witness for C5 at Scenario G (two equidistant targets): the
first-listed target (5,0) is picked. -/
theorem C5_greedy_selection_witness :
    nearest ((0:ℝ), (0:ℝ)) [((5:ℝ), (0:ℝ)), ((-5:ℝ), (0:ℝ))]
        ∈ [((5:ℝ), (0:ℝ)), ((-5:ℝ), (0:ℝ))] ∧
      euclid ((0:ℝ), (0:ℝ))
          (nearest ((0:ℝ), (0:ℝ)) [((5:ℝ), (0:ℝ)), ((-5:ℝ), (0:ℝ))])
        ≤ euclid ((0:ℝ), (0:ℝ)) ((-5:ℝ), (0:ℝ)) ∧
      [((5:ℝ), (0:ℝ)), ((-5:ℝ), (0:ℝ))].indexOf
          (nearest ((0:ℝ), (0:ℝ)) [((5:ℝ), (0:ℝ)), ((-5:ℝ), (0:ℝ))])
        ≤ [((5:ℝ), (0:ℝ)), ((-5:ℝ), (0:ℝ))].indexOf ((-5:ℝ), (0:ℝ)) ∧
      nearest ((0:ℝ), (0:ℝ)) [((5:ℝ), (0:ℝ)), ((-5:ℝ), (0:ℝ))] = (5, 0) ∧
      outG.artifacts.Sublist [((5:ℝ), (0:ℝ)), ((-5:ℝ), (0:ℝ))] := by
  obtain ⟨h1, h2, h3, h4⟩ := C5_greedy_selection loopG
  refine ⟨h1, h2 _ (by simp), ?_, nearG, h4⟩
  refine h3 _ (by simp) ?_
  rw [nearG, euclid_horiz, euclid_horiz]
  norm_num

/-- Claim C6: for every visited target, base points equal the
points_per_artifact parameter, bonus points are decode_bonus exactly
when the Euclidean distance from the target to the decode-zone centre
is ≤ its radius (closed boundary) and 0 otherwise, and gained points
are (base + bonus), multiplied by auton_multiplier exactly when the
visit is in-autonomous. -/
theorem C6_scoring {start : Point} {arts : List Point} {p : Params}
    {res : StrategyResult} (hr : compute_strategy start arts p = .ok res) :
    ∀ rec ∈ res.visited,
      rec.base_points = p.points_per_artifact ∧
      rec.bonus_points = (if euclid rec.pos p.decode_zone.1 ≤ p.decode_zone.2
        then p.decode_bonus else 0) ∧
      rec.gained = (if rec.in_auton
        then (rec.base_points + rec.bonus_points) * p.auton_multiplier
        else rec.base_points + rec.bonus_points) := by
  obtain ⟨out, hloop, hres⟩ := compute_strategy_ok_elim hr
  subst hres
  refine loop_visited_pred _ ?_ (by simp) hloop
  intro pos t target
  exact ⟨rfl, rfl, rfl⟩

/-- Witness for C6 at Scenario A: the target sits exactly at
distance = radius from the bonus centre and receives the bonus, and the
autonomous multiplier is applied. -/
theorem C6_scoring_witness :
    recA.bonus_points = pA.decode_bonus ∧
      euclid recA.pos pA.decode_zone.1 = pA.decode_zone.2 ∧
      recA.gained = (recA.base_points + recA.bonus_points) * pA.auton_multiplier := by
  have h := C6_scoring runA recA (by simp [resA])
  have hb : euclid recA.pos pA.decode_zone.1 = pA.decode_zone.2 := by
    show euclid ((3:ℝ), (4:ℝ)) ((3:ℝ), (0:ℝ)) = 4
    rw [euclid_vert]
    norm_num
  refine ⟨?_, hb, ?_⟩
  · rw [h.2.1, if_pos (le_of_eq hb)]
  · rw [h.2.2, show recA.in_auton = true from rfl]
    rfl

/-- Counterexample to claim C7 as stated: in Scenario A the single
record has travel_time 5 and pickup_time 3, and its recorded
time_at_pickup is 8 — the elapsed time after the pickup duration was
added — not 0 + 5, the elapsed time at which pickup begins. -/
theorem C7_counterexample :
    compute_strategy ((0:ℝ), (0:ℝ)) [((3:ℝ), (4:ℝ))] pA = .ok resA ∧
      resA.visited.map (fun v => (v.travel_time, v.pickup_time, v.time_at_pickup))
        = [(5, 3, 8)] ∧
      ¬ ((8:ℝ) = 0 + 5) :=
  ⟨runA, by simp [resA, recA], by norm_num⟩

/-- Claim C7 (amended): the recorded time_at_pickup of each VisitRecord
is the cumulative elapsed time at the moment pickup *completes*: the
elapsed time after the previous record (0 for the first) plus the
record's own travel_time plus its own pickup_time. -/
theorem C7_time_at_pickup_completion {start : Point} {arts : List Point}
    {p : Params} {res : StrategyResult}
    (hr : compute_strategy start arts p = .ok res) :
    chainFrom 0 res.visited := by
  obtain ⟨out, hloop, hres⟩ := compute_strategy_ok_elim hr
  subst hres
  exact (loop_chain 0 (show chainFrom 0 [] from trivial) rfl hloop).1

/-- Witness for C7 (amended) at Scenario A: 8 = 0 + 5 + 3. -/
theorem C7_time_at_pickup_completion_witness : chainFrom 0 resA.visited :=
  C7_time_at_pickup_completion runA

/-- Counterexample to claim C8 as stated: with two coincident targets
at the start position and pickup_time = 0 (allowed by the claim's
preconditions speed > 0, pickup ≥ 0, totalTime ≥ 0), both records carry
time_at_pickup 0, so the recorded times are not strictly increasing. -/
theorem C8_counterexample :
    0 < pF.robot_speed ∧ 0 ≤ pF.pickup_time ∧ 0 ≤ pF.match_time ∧
      compute_strategy ((0:ℝ), (0:ℝ)) [((0:ℝ), (0:ℝ)), ((0:ℝ), (0:ℝ))] pF
        = .ok resF ∧
      resF.visited.map VisitRecord.time_at_pickup = [0, 0] ∧
      ¬ List.Chain' (· < ·) (resF.visited.map VisitRecord.time_at_pickup) := by
  refine ⟨by norm_num [pF], by norm_num [pF], by norm_num [pF], runF,
    by simp [resF, recF], ?_⟩
  rw [show resF.visited.map VisitRecord.time_at_pickup = [(0:ℝ), 0] from by
    simp [resF, recF]]
  simp [List.chain'_cons]

/-- Claim C8 (amended): with speed > 0 and pickupDuration > 0, the
cumulative elapsed times recorded across the plan's VisitRecords are
strictly increasing from one record to the next. -/
theorem C8_strict_time_order {start : Point} {arts : List Point} {p : Params}
    (hs : 0 < p.robot_speed) (hp : 0 < p.pickup_time)
    {res : StrategyResult} (hr : compute_strategy start arts p = .ok res) :
    List.Chain' (· < ·) (res.visited.map VisitRecord.time_at_pickup) := by
  obtain ⟨out, hloop, hres⟩ := compute_strategy_ok_elim hr
  subst hres
  have hchain := (loop_chain 0 (show chainFrom 0 [] from trivial) rfl hloop).1
  have hrecs : ∀ r ∈ out.visited,
      0 ≤ r.travel_time ∧ r.pickup_time = p.pickup_time := by
    refine loop_visited_pred _ ?_ (by simp) hloop
    intro pos t target
    exact ⟨div_nonneg (Real.sqrt_nonneg _) (le_of_lt hs), rfl⟩
  exact chain_lt_to_chain_of_map (chain_lt_of_chainFrom hp hchain hrecs)

/-- Witness for C8 (amended) at Scenario B: times [4, 12] are strictly
increasing. -/
theorem C8_strict_time_order_witness :
    List.Chain' (· < ·) (resB.visited.map VisitRecord.time_at_pickup) :=
  C8_strict_time_order (by norm_num [pB]) (by norm_num [pB]) runB

/-- Claim C9: whenever speed > 0, compute_strategy returns normally
regardless of every other parameter value; and when the total budget is
smaller than travel time to the nearest target plus the pickup
duration (e.g. totalTime < 0), it returns an empty visited list,
score 0, used_time 0, and all targets unreached. -/
theorem C9_no_validation_errors {start : Point} {arts : List Point} {p : Params}
    (hs : 0 < p.robot_speed) :
    (compute_strategy start arts p).isOk = true ∧
      (p.match_time <
          euclid start (nearest start arts) / p.robot_speed + p.pickup_time →
        compute_strategy start arts p = .ok ⟨[], 0, 0, arts.length, p⟩) := by
  have hs0 : p.robot_speed ≠ 0 := ne_of_gt hs
  constructor
  · cases hl : loop p start 0 0 [] arts with
    | error e =>
      have h := loop_isOk hs0 start 0 0 [] arts
      rw [hl] at h
      exact Bool.noConfusion h
    | ok out =>
      rw [compute_strategy_of_loop hl]
      rfl
  · intro hshort
    cases arts with
    | nil =>
      rw [compute_strategy_of_loop loop_nil]
    | cons a rest =>
      have hstop : loop p start 0 0 [] (a :: rest) = .ok ⟨[], 0, 0, a :: rest⟩ :=
        loop_cons_stop hs0 (by rw [zero_add]; exact hshort)
      rw [compute_strategy_of_loop hstop]

/-- Witness for C9 at Scenario C (budget 2 < travel 3 + pickup 1). -/
theorem C9_no_validation_errors_witness :
    (compute_strategy ((0:ℝ), (0:ℝ)) [((0:ℝ), (3:ℝ))] pC).isOk = true ∧
      compute_strategy ((0:ℝ), (0:ℝ)) [((0:ℝ), (3:ℝ))] pC
        = .ok ⟨[], 0, 0, 1, pC⟩ := by
  constructor
  · exact (C9_no_validation_errors (by norm_num [pC])).1
  · refine (C9_no_validation_errors (by norm_num [pC])).2 ?_
    rw [show nearest ((0:ℝ), (0:ℝ)) [((0:ℝ), (3:ℝ))] = (0, 3) from rfl,
      euclid_vert]
    norm_num [pC]

/-- Claim C10: the mapping returned by compute_strategy carries, besides
the four outputs the spec lists, a fifth entry params holding the
caller's parameter mapping unchanged. -/
theorem C10_params_passthrough {start : Point} {arts : List Point} {p : Params}
    {res : StrategyResult} (hr : compute_strategy start arts p = .ok res) :
    res.params = p := by
  obtain ⟨out, hloop, hres⟩ := compute_strategy_ok_elim hr
  subst hres
  rfl

/-- Witness for C10 at Scenario A. -/
theorem C10_params_passthrough_witness : resA.params = pA :=
  C10_params_passthrough runA

end Decode
